import Mathlib

/-!
Verification of the github-code-search MCP server (src/server.ts): a shallow
embedding of the `search-code` tool handler's paging/aggregation loop and of
the session-transport registry, with theorems settling the specification's
claims about them.

The upstream search API is modelled as an abstract paged source
`src : Nat → Nat → Except ε (Page α)` taking the `per_page` value sent with
the request and a page number, and returning either a failure or one page of
data (items, `total_count`, optional `incomplete_results`, and whether the
response's Link header carries a `rel="next"` entry).
-/

namespace Cuttlefish

/-- One page of upstream response data, as consumed by the handler:
`data.items`, `data.total_count`, `(data as any).incomplete_results`
(possibly absent), and whether `headers.link` matched `rel="next"`. -/
structure Page (α : Type) where
  items : List α
  total_count : Nat
  incomplete_results : Option Bool
  hasNext : Bool
  deriving Repr, DecidableEq

/-- The handler's loop state: `collected`, `current`, `fetchedPages`,
`total`, `incomplete` (src/server.ts line 56). -/
structure AggState (α : Type) where
  collected : List α
  current : Nat
  fetchedPages : Nat
  total : Nat
  incomplete : Bool
  deriving Repr, DecidableEq

/-- The JS guard `max_pages && fetchedPages >= max_pages`: an absent
`max_pages` is falsy, and so is the (schema-excluded) value `0`. -/
def maxPagesReached (mp : Option Nat) (fetched : Nat) : Bool :=
  match mp with
  | none => false
  | some m => (m != 0) && (m ≤ fetched)

/-- The body of one loop iteration after a successful fetch of page `pg`:
capture `total_count` on the first page only, OR in `incomplete_results`
(defaulting an absent field to `false`), append the items, and bump the
page counter (src/server.ts lines 65-68). -/
def stepState (s : AggState α) (pg : Page α) : AggState α :=
  { collected := s.collected ++ pg.items
    current := s.current
    fetchedPages := s.fetchedPages + 1
    total := if s.fetchedPages = 0 then pg.total_count else s.total
    incomplete := s.incomplete || pg.incomplete_results.getD false }

/-- The `while (true)` paging loop of the `search-code` handler
(src/server.ts lines 58-78), with explicit fuel; `none` means the fuel ran
out before the loop terminated. Break conditions, in source order: the
`max_pages` guard before any fetch; fetch failure aborts with the error;
then after appending — empty page, `collected.length >= max_items`,
`collected.length >= 1000` (which truncates via `collected.length = 1000`),
and absence of a `rel="next"` link; otherwise `current += 1` and repeat. -/
def aggLoop (src : Nat → Nat → Except ε (Page α)) (per_page max_items : Nat)
    (mp : Option Nat) : Nat → AggState α → Option (Except ε (AggState α))
  | 0, _ => none
  | fuel + 1, s =>
    if maxPagesReached mp s.fetchedPages then some (.ok s)
    else
      match src per_page s.current with
      | .error e => some (.error e)
      | .ok pg =>
        if pg.items.length = 0 then some (.ok (stepState s pg))
        else if max_items ≤ (stepState s pg).collected.length then
          some (.ok (stepState s pg))
        else if 1000 ≤ (stepState s pg).collected.length then
          some (.ok { stepState s pg with
                        collected := (stepState s pg).collected.take 1000 })
        else if pg.hasNext then
          aggLoop src per_page max_items mp fuel
            { stepState s pg with current := s.current + 1 }
        else some (.ok (stepState s pg))

/-- The initial loop state for a run starting at page `p0`:
`collected = []`, `current = p0`, `fetchedPages = 0`, `total = 0`,
`incomplete = false`. -/
def initState (p0 : Nat) : AggState α := ⟨[], p0, 0, 0, false⟩

/-- The `{ total, incomplete, items }` payload of the tool response, plus the
page count reported in the summary line. -/
structure SearchResult (α : Type) where
  total : Nat
  incomplete : Bool
  items : List α
  fetchedPages : Nat
  deriving Repr, DecidableEq

def toResult (s : AggState α) : SearchResult α :=
  ⟨s.total, s.incomplete, s.collected, s.fetchedPages⟩

/-- The caller-supplied arguments of the `search-code` tool, before zod
validation; `none` stands for an omitted optional field. -/
structure RawArgs where
  q : String
  sort : Option String
  order : Option String
  per_page : Option Nat
  page : Option Nat
  max_items : Option Nat
  max_pages : Option Nat
  text_match : Option Bool
  deriving Repr, DecidableEq

/-- The zod `inputSchema` (src/server.ts lines 22-31): `q` non-empty,
`sort ∈ {indexed}`, `order ∈ {asc, desc}`, `per_page` in 1..25, `page ≥ 1`,
`max_items` in 1..100, `max_pages ≥ 1`, all but `q` optional. -/
def validArgs (a : RawArgs) : Bool :=
  (1 ≤ a.q.length) &&
  (match a.sort with | none => true | some s => s == "indexed") &&
  (match a.order with | none => true | some o => o == "asc" || o == "desc") &&
  (match a.per_page with | none => true | some n => 1 ≤ n && n ≤ 25) &&
  (match a.page with | none => true | some n => 1 ≤ n) &&
  (match a.max_items with | none => true | some n => 1 ≤ n && n ≤ 100) &&
  (match a.max_pages with | none => true | some n => 1 ≤ n)

/-- Arguments after the destructuring defaults of src/server.ts lines 41-46:
`per_page = 100`, `page = 1`, `max_items = 1000`, `max_pages` left optional.
The defaults are applied after `inputSchema.parse`, so they are not subject
to the schema bounds. -/
structure ParsedArgs where
  q : String
  per_page : Nat
  page : Nat
  max_items : Nat
  max_pages : Option Nat
  deriving Repr, DecidableEq

def applyDefaults (a : RawArgs) : ParsedArgs :=
  { q := a.q
    per_page := a.per_page.getD 100
    page := a.page.getD 1
    max_items := a.max_items.getD 1000
    max_pages := a.max_pages }

/-- Outcome of one `search-code` tool invocation: zod rejection, upstream
failure propagated out of the handler, or the aggregated result. `fuelOut`
is the embedding's marker for a run needing more fuel than supplied. -/
inductive ToolResponse (ε α : Type) where
  | invalidArgs
  | fuelOut
  | failed (e : ε)
  | ok (r : SearchResult α)
  deriving Repr, DecidableEq

/-- The whole `search-code` handler: parse/validate the arguments, apply the
destructuring defaults, and run the paging loop from the requested starting
page. -/
def searchCode (src : Nat → Nat → Except ε (Page α)) (a : RawArgs)
    (fuel : Nat) : ToolResponse ε α :=
  if validArgs a then
    let p := applyDefaults a
    match aggLoop src p.per_page p.max_items p.max_pages fuel (initState p.page) with
    | none => .fuelOut
    | some (.error e) => .failed e
    | some (.ok st) => .ok (toResult st)
  else .invalidArgs

/-- Length of the returned items collection, when the invocation produced a
result. -/
def respLen : ToolResponse ε α → Option Nat
  | .ok r => some r.items.length
  | _ => none

/-- The upstream error carried by a failed invocation. -/
def respErr : ToolResponse ε α → Option ε
  | .failed e => some e
  | _ => none

/-- Whether a successfully fetched page reported `incomplete_results = true`;
an absent field counts as `false` (the `?? false` of src/server.ts line 66). -/
def pageReportsIncomplete : Except ε (Page α) → Bool
  | .ok pg => pg.incomplete_results.getD false
  | .error _ => false

/-- OR of `pageReportsIncomplete` over the `d` consecutive pages
`p, p+1, …, p+d-1` of the source. -/
def pagesOr (src : Nat → Nat → Except ε (Page α)) (pp p : Nat) : Nat → Bool
  | 0 => false
  | d + 1 => pageReportsIncomplete (src pp p) || pagesOr src pp (p + 1) d

/-- A finite upstream source with total `T` items served in pages of `S`
items (the last page possibly smaller), never failing and never marked
incomplete; page `p` carries a `rel="next"` link exactly when items remain
beyond it. Items are represented by their zero-based global index. -/
def finSrc (S T : Nat) : Nat → Nat → Except Unit (Page Nat) :=
  fun _pp p => .ok
    { items := (List.range (min S (T - (p - 1) * S))).map (fun i => (p - 1) * S + i)
      total_count := T
      incomplete_results := some false
      hasNext := decide (p * S < T) }

/-- The number of pages `finSrc S T` serves before reporting exhaustion: at
least one (an empty source still serves one empty page), and `⌈T / S⌉`
otherwise. -/
def Pfin (S T : Nat) : Nat := max 1 ((T + S - 1) / S)

end Cuttlefish

namespace Cuttlefish

/-! ### Session registry and HTTP routing -/

/-- The `transports` map: session id → transport (transports represented by
a numeric identity). JS object keys are unique; lookup finds the unique
entry. -/
abbrev Registry := List (String × Nat)

def lookupT (m : Registry) (sid : String) : Option Nat :=
  (m.find? (fun e => e.1 == sid)).map (fun e => e.2)

/-- What `ensureTransport` does with the presented session id: reuse the
registered transport, or construct (and fire-and-forget connect) a fresh
one that is not registered until its `onsessioninitialized` callback runs. -/
inductive ResolveOutcome where
  | reuse (t : Nat)
  | fresh
  deriving Repr, DecidableEq

/-- `ensureTransport` (src/server.ts lines 128-139): return the registered
transport when `sessionId` is present and known, otherwise create a new one. -/
def ensureTransport (m : Registry) (sid : Option String) : ResolveOutcome :=
  match sid with
  | some s =>
    match lookupT m s with
    | some t => .reuse t
    | none => .fresh
  | none => .fresh

/-- `onsessionclosed`: `delete transports[sid]` (src/server.ts line 135). -/
def release (m : Registry) (sid : String) : Registry :=
  m.filter (fun e => !(e.1 == sid))

/-- `onsessioninitialized`: `transports[sid] = transport`. -/
def register (m : Registry) (sid : String) (t : Nat) : Registry :=
  (sid, t) :: m

inductive Method where
  | post
  | get
  | del
  deriving Repr, DecidableEq

/-- What a route handler does with a request. -/
inductive RouteAction where
  | delegateExisting (t : Nat)
  | delegateFresh
  | reject400
  deriving Repr, DecidableEq

/-- `handleSession` (src/server.ts lines 154-159): `sid && transports[sid]`,
rejecting with HTTP 400 ("Invalid session") when the header is absent or the
id unknown. -/
def handleSession (m : Registry) (sid : Option String) : RouteAction :=
  match sid with
  | some s =>
    match lookupT m s with
    | some t => .delegateExisting t
    | none => .reject400
  | none => .reject400

/-- The Express routing of src/server.ts: POST `/mcp` and GET `/mcp` go
through `ensureTransport` (the later `app.get("/mcp", handleSession)`
registration is shadowed by the earlier GET handler — Express dispatches to
the first matching route); DELETE `/mcp` goes through `handleSession`. -/
def routeAction (m : Registry) (meth : Method) (sid : Option String) :
    RouteAction :=
  match meth with
  | .post | .get =>
    match ensureTransport m sid with
    | .reuse t => .delegateExisting t
    | .fresh => .delegateFresh
  | .del => handleSession m sid

/-- Modelled from the spec: the registry is mutated only by the transport
callbacks, and the transport layer fires `onsessioninitialized` — thereby
registering a fresh id — only when the delegated message is the handshake
(initialize) message; every other delegated or rejected request leaves the
registry unchanged. This callback trigger lives in the excluded protocol
layer; the spec states that only the handshake path creates a session. -/
def routeRegistry (m : Registry) (meth : Method) (sid : Option String)
    (isHandshake : Bool) (newSid : String) (newT : Nat) : Registry :=
  match routeAction m meth sid with
  | .delegateFresh => if isHandshake then register m newSid newT else m
  | _ => m

/-- A probe source that fails immediately, reporting back the `per_page`
value the aggregation loop sent with the upstream request. -/
def probeSrc : Nat → Nat → Except Nat (Page Nat) :=
  fun pp _p => .error pp

/-- A two-page source whose second page reports a different `total_count`
(99) than the first page (6). -/
def twoPageSrc : Nat → Nat → Except Unit (Page Nat) :=
  fun _pp p =>
    if p = 1 then .ok ⟨[0, 1], 6, some false, true⟩
    else .ok ⟨[2, 3], 99, some false, false⟩

/-- A three-page source whose middle page reports `incomplete_results =
true` while the later page reports `false` again. -/
def stickySrc : Nat → Nat → Except Unit (Page Nat) :=
  fun _pp p =>
    if p = 1 then .ok ⟨[0], 10, some false, true⟩
    else if p = 2 then .ok ⟨[1], 10, some true, true⟩
    else .ok ⟨[2], 10, some false, false⟩

/-- A one-page source that explicitly reports `incomplete_results = true`. -/
def incSrc : Nat → Nat → Except Unit (Page Nat) :=
  fun _pp _p => .ok ⟨[5], 1, some true, false⟩

end Cuttlefish

namespace Cuttlefish

-- Sanity checks of the embedding on concrete runs (spec §8 scenarios).
example :
    respLen (searchCode (finSrc 2 6)
      ⟨"x", none, none, some 2, none, some 4, none, none⟩ 10) = some 4 := by
  decide

example :
    respLen (searchCode (finSrc 2 0)
      ⟨"x", none, none, some 2, none, none, none, none⟩ 10) = some 0 := by
  decide

example :
    respLen (searchCode (finSrc 2 50)
      ⟨"x", none, none, some 2, none, none, some 1, none⟩ 10) = some 2 := by
  decide

deriving instance DecidableEq for Except

/-! ### Loop-state lemmas -/

@[simp] theorem stepState_collected (s : AggState α) (pg : Page α) :
    (stepState s pg).collected = s.collected ++ pg.items := rfl

@[simp] theorem stepState_fetchedPages (s : AggState α) (pg : Page α) :
    (stepState s pg).fetchedPages = s.fetchedPages + 1 := rfl

@[simp] theorem stepState_current (s : AggState α) (pg : Page α) :
    (stepState s pg).current = s.current := rfl

@[simp] theorem stepState_incomplete (s : AggState α) (pg : Page α) :
    (stepState s pg).incomplete
      = (s.incomplete || pg.incomplete_results.getD false) := rfl

theorem stepState_total (s : AggState α) (pg : Page α) :
    (stepState s pg).total
      = if s.fetchedPages = 0 then pg.total_count else s.total := rfl

@[simp] theorem maxPagesReached_zero (mp : Option Nat) :
    maxPagesReached mp 0 = false := by
  cases mp with
  | none => rfl
  | some m =>
    simp only [maxPagesReached, Bool.and_eq_false_iff]
    rcases Nat.eq_zero_or_pos m with hm | hm
    · subst hm; left; rfl
    · right; simpa using Nat.pos_iff_ne_zero.mp hm

/-- Unfolding of one loop iteration when the `max_pages` guard fires. -/
theorem aggLoop_stop (src : Nat → Nat → Except ε (Page α)) (pp M : Nat)
    (mp : Option Nat) (fuel : Nat) (s : AggState α)
    (hmp : maxPagesReached mp s.fetchedPages = true) :
    aggLoop src pp M mp (fuel + 1) s = some (.ok s) := by
  rw [aggLoop, if_pos hmp]

/-- Unfolding of one loop iteration on a successful fetch. -/
theorem aggLoop_fetch (src : Nat → Nat → Except ε (Page α)) (pp M : Nat)
    (mp : Option Nat) (fuel : Nat) (s : AggState α) (pg : Page α)
    (hmp : maxPagesReached mp s.fetchedPages = false)
    (hsrc : src pp s.current = .ok pg) :
    aggLoop src pp M mp (fuel + 1) s =
      (if pg.items.length = 0 then some (.ok (stepState s pg))
       else if M ≤ (stepState s pg).collected.length then
         some (.ok (stepState s pg))
       else if 1000 ≤ (stepState s pg).collected.length then
         some (.ok { stepState s pg with
                       collected := (stepState s pg).collected.take 1000 })
       else if pg.hasNext then
         aggLoop src pp M mp fuel { stepState s pg with current := s.current + 1 }
       else some (.ok (stepState s pg))) := by
  rw [aggLoop, if_neg (by rw [hmp]; exact Bool.false_ne_true), hsrc]

/-- Once the first page has been fetched, the loop never writes `total`
again: later pages leave it untouched. -/
theorem aggLoop_total_frame (src : Nat → Nat → Except ε (Page α)) (pp M : Nat)
    (mp : Option Nat) :
    ∀ fuel (s st : AggState α), s.fetchedPages ≠ 0 →
      aggLoop src pp M mp fuel s = some (.ok st) → st.total = s.total := by
  intro fuel
  induction fuel with
  | zero => intro s st _ h; simp [aggLoop] at h
  | succ n ih =>
    intro s st hf h
    by_cases hmp : maxPagesReached mp s.fetchedPages
    · rw [aggLoop_stop src pp M mp n s hmp] at h
      cases h
      rfl
    rw [Bool.not_eq_true] at hmp
    cases hsrc : src pp s.current with
    | error e =>
      rw [aggLoop, if_neg (by rw [hmp]; exact Bool.false_ne_true), hsrc] at h
      cases h
    | ok pg =>
      rw [aggLoop_fetch src pp M mp n s pg hmp hsrc] at h
      have htot : (stepState s pg).total = s.total := by
        rw [stepState_total, if_neg hf]
      split_ifs at h with h1 h2 h3 h4
      · cases h; exact htot
      · cases h; exact htot
      · cases h; exact htot
      · have := ih _ st (by simp) h
        simpa [htot] using this
      · cases h; exact htot

/-- C4: the `total` field of the final result is the `total_count` of the
first fetched page — the page at the starting page number — and every later
fetch leaves it unchanged, whatever `total_count` later pages report. -/
theorem total_count_first_page (src : Nat → Nat → Except ε (Page α))
    (pp M p0 : Nat) (mp : Option Nat) (fuel : Nat) (st : AggState α)
    (pg : Page α) (hsrc : src pp p0 = .ok pg)
    (h : aggLoop src pp M mp fuel (initState p0) = some (.ok st)) :
    st.total = pg.total_count := by
  cases fuel with
  | zero => simp [aggLoop] at h
  | succ n =>
    rw [aggLoop_fetch src pp M mp n (initState p0) pg
          (by rw [show (initState p0 : AggState α).fetchedPages = 0 from rfl,
                  maxPagesReached_zero])
          (by rw [show (initState p0 : AggState α).current = p0 from rfl, hsrc])]
      at h
    have htot : (stepState (initState p0) pg).total = pg.total_count := rfl
    split_ifs at h with h1 h2 h3 h4
    · cases h; exact htot
    · cases h; exact htot
    · cases h; exact htot
    · have := aggLoop_total_frame src pp M mp n _ st (by simp) h
      simpa [htot] using this
    · cases h; exact htot

/-- Closed instance of `total_count_first_page`: the run over `twoPageSrc`
— whose second page reports `total_count = 99` — ends in the state computed
by `decide`, and its `total` is the first page's value 6. -/
theorem total_count_first_page_witness :
    twoPageSrc 2 1 = .ok ⟨[0, 1], 6, some false, true⟩ ∧
    aggLoop twoPageSrc 2 1000 none 10 (initState 1)
      = some (.ok ⟨[0, 1, 2, 3], 2, 2, 6, false⟩) ∧
    AggState.total ⟨[0, 1, 2, 3], 2, 2, 6, false⟩ = (6 : Nat) :=
  ⟨by decide, by decide,
   total_count_first_page twoPageSrc 2 1000 1 none 10
     ⟨[0, 1, 2, 3], 2, 2, 6, false⟩ ⟨[0, 1], 6, some false, true⟩
     (by decide) (by decide)⟩

/-! ### The incomplete flag -/

theorem pagesOr_eq_true_iff (src : Nat → Nat → Except ε (Page α)) (pp : Nat) :
    ∀ d p, pagesOr src pp p d = true ↔
      ∃ j, j < d ∧ pageReportsIncomplete (src pp (p + j)) = true := by
  intro d
  induction d with
  | zero => intro p; simp [pagesOr]
  | succ n ih =>
    intro p
    rw [pagesOr, Bool.or_eq_true, ih (p + 1)]
    constructor
    · rintro (h0 | ⟨j, hj, hr⟩)
      · exact ⟨0, Nat.succ_pos n, by simpa using h0⟩
      · exact ⟨j + 1, by omega, by rwa [show p + (j + 1) = p + 1 + j by omega]⟩
    · rintro ⟨j, hj, hr⟩
      cases j with
      | zero => left; simpa using hr
      | succ k =>
        right
        exact ⟨k, by omega, by rwa [show p + 1 + k = p + (k + 1) by omega]⟩

/-- The loop ORs each fetched page's (defaulted) `incomplete_results` into
the running flag, and never resets it: the final flag is the initial flag
ORed with the flags of the pages fetched during the run. -/
theorem aggLoop_incomplete_or (src : Nat → Nat → Except ε (Page α))
    (pp M : Nat) (mp : Option Nat) :
    ∀ fuel (s st : AggState α),
      aggLoop src pp M mp fuel s = some (.ok st) →
      s.fetchedPages ≤ st.fetchedPages ∧
      st.incomplete = (s.incomplete ||
        pagesOr src pp s.current (st.fetchedPages - s.fetchedPages)) := by
  intro fuel
  induction fuel with
  | zero => intro s st h; simp [aggLoop] at h
  | succ n ih =>
    intro s st h
    by_cases hmp : maxPagesReached mp s.fetchedPages
    · rw [aggLoop_stop src pp M mp n s hmp] at h
      cases h
      simp [pagesOr]
    rw [Bool.not_eq_true] at hmp
    cases hsrc : src pp s.current with
    | error e =>
      rw [aggLoop, if_neg (by rw [hmp]; exact Bool.false_ne_true), hsrc] at h
      cases h
    | ok pg =>
      rw [aggLoop_fetch src pp M mp n s pg hmp hsrc] at h
      have hone : pagesOr src pp s.current (s.fetchedPages + 1 - s.fetchedPages)
          = pg.incomplete_results.getD false := by
        rw [show s.fetchedPages + 1 - s.fetchedPages = 1 by omega]
        simp [pagesOr, pageReportsIncomplete, hsrc]
      split_ifs at h with h1 h2 h3 h4
      · cases h; exact ⟨by simp, by rw [stepState_fetchedPages, hone]; rfl⟩
      · cases h; exact ⟨by simp, by rw [stepState_fetchedPages, hone]; rfl⟩
      · cases h; exact ⟨by simp, by rw [show ({ stepState s pg with
            collected := (stepState s pg).collected.take 1000
            : AggState α}).fetchedPages = s.fetchedPages + 1 from rfl, hone]; rfl⟩
      · obtain ⟨hle, hinc⟩ := ih _ st h
        rw [show ({ stepState s pg with current := s.current + 1
              : AggState α}).fetchedPages = s.fetchedPages + 1 from rfl] at hle
        refine ⟨by omega, ?_⟩
        rw [hinc]
        rw [show ({ stepState s pg with current := s.current + 1
              : AggState α}).incomplete
            = (s.incomplete || pg.incomplete_results.getD false) from rfl,
          show ({ stepState s pg with current := s.current + 1
              : AggState α}).current = s.current + 1 from rfl,
          show ({ stepState s pg with current := s.current + 1
              : AggState α}).fetchedPages = s.fetchedPages + 1 from rfl]
        rw [show st.fetchedPages - s.fetchedPages
            = (st.fetchedPages - (s.fetchedPages + 1)) + 1 by omega]
        rw [pagesOr, hsrc,
          show pageReportsIncomplete (Except.ok pg : Except ε (Page α))
            = pg.incomplete_results.getD false from rfl,
          Bool.or_assoc]
      · cases h; exact ⟨by simp, by rw [stepState_fetchedPages, hone]; rfl⟩

/-- C3: within one aggregation run, if any fetched page (the `j`-th page
fetched, at page number `p0 + j`) reports `incomplete_results = true`, the
final result reports `incomplete = true` — later pages reporting `false`
cannot clear it, since the flag is only ever ORed into. -/
theorem incomplete_sticky (src : Nat → Nat → Except ε (Page α))
    (pp M p0 : Nat) (mp : Option Nat) (fuel : Nat) (st : AggState α)
    (j : Nat) (pg : Page α)
    (h : aggLoop src pp M mp fuel (initState p0) = some (.ok st))
    (hj : j < st.fetchedPages)
    (hpg : src pp (p0 + j) = .ok pg)
    (ht : pg.incomplete_results = some true) :
    st.incomplete = true := by
  obtain ⟨-, hinc⟩ := aggLoop_incomplete_or src pp M mp fuel (initState p0) st h
  rw [show (initState p0 : AggState α).incomplete = false from rfl,
    show (initState p0 : AggState α).current = p0 from rfl,
    show (initState p0 : AggState α).fetchedPages = 0 from rfl,
    Nat.sub_zero, Bool.false_or] at hinc
  rw [hinc, pagesOr_eq_true_iff]
  exact ⟨j, hj, by rw [hpg]; simp [pageReportsIncomplete, ht]⟩

/-- Closed instance of `incomplete_sticky` on `stickySrc`: page 2 reports
`true`, page 3 reports `false`, and the final flag is `true`. -/
theorem incomplete_sticky_witness :
    stickySrc 5 (1 + 1) = .ok ⟨[1], 10, some true, true⟩ ∧
    AggState.incomplete ⟨[0, 1, 2], 3, 3, 10, true⟩ = true :=
  ⟨by decide,
   incomplete_sticky stickySrc 5 1000 1 none 10 ⟨[0, 1, 2], 3, 3, 10, true⟩
     1 ⟨[1], 10, some true, true⟩ (by decide) (by decide) (by decide)
     (by decide)⟩

/-- C10: a fetched page with an absent `incomplete_results` field is treated
as reporting `false` (the `?? false` default), so the final flag is `true`
only when some fetched page explicitly carried `incomplete_results = some
true`. -/
theorem incomplete_only_if_reported (src : Nat → Nat → Except ε (Page α))
    (pp M p0 : Nat) (mp : Option Nat) (fuel : Nat) (st : AggState α)
    (h : aggLoop src pp M mp fuel (initState p0) = some (.ok st))
    (hinc : st.incomplete = true) :
    ∃ j, j < st.fetchedPages ∧ ∃ pg, src pp (p0 + j) = .ok pg ∧
      pg.incomplete_results = some true := by
  obtain ⟨-, heq⟩ := aggLoop_incomplete_or src pp M mp fuel (initState p0) st h
  rw [show (initState p0 : AggState α).incomplete = false from rfl,
    show (initState p0 : AggState α).current = p0 from rfl,
    show (initState p0 : AggState α).fetchedPages = 0 from rfl,
    Nat.sub_zero, Bool.false_or] at heq
  rw [heq] at hinc
  obtain ⟨j, hj, hr⟩ := (pagesOr_eq_true_iff src pp st.fetchedPages p0).mp hinc
  refine ⟨j, hj, ?_⟩
  cases hpg : src pp (p0 + j) with
  | error e => rw [hpg] at hr; simp [pageReportsIncomplete] at hr
  | ok pg =>
    refine ⟨pg, rfl, ?_⟩
    rw [hpg] at hr
    cases hb : pg.incomplete_results with
    | none => simp only [pageReportsIncomplete, hb] at hr; simp at hr
    | some b =>
      simp only [pageReportsIncomplete, hb] at hr
      simp at hr
      rw [hr]

/-- Closed instance of `incomplete_only_if_reported` on `incSrc`. -/
theorem incomplete_only_if_reported_witness :
    ∃ j, j < AggState.fetchedPages ⟨[5], 1, 1, 1, true⟩ ∧
      ∃ pg, incSrc 5 (1 + j) = .ok pg ∧ pg.incomplete_results = some true :=
  incomplete_only_if_reported incSrc 5 1000 1 none 10 ⟨[5], 1, 1, 1, true⟩
    (by decide) (by decide)

/-! ### Length bounds -/

theorem finSrc_items_le (S T pp p : Nat) (pg : Page Nat)
    (h : finSrc S T pp p = .ok pg) : pg.items.length ≤ S := by
  cases h
  simp

theorem validArgs_max_items_pos (a : RawArgs) (h : validArgs a = true) :
    1 ≤ (applyDefaults a).max_items := by
  unfold validArgs at h
  simp only [Bool.and_eq_true] at h
  have hm := h.1.2
  unfold applyDefaults
  cases hmi : a.max_items with
  | none => simp
  | some n =>
    rw [hmi] at hm
    simp only [Bool.and_eq_true, decide_eq_true_eq] at hm
    simpa using hm.1

/-- Invariant bound on the accumulated collection: the loop only continues
while `collected.length < min max_items 1000`, and each fetch appends at
most one page, so the final length never exceeds
`min max_items 1000 - 1 + S` when every upstream page holds at most `S`
items. -/
theorem aggLoop_len_bound (src : Nat → Nat → Except ε (Page α))
    (pp M S : Nat) (mp : Option Nat)
    (hS : ∀ p pg, src pp p = .ok pg → pg.items.length ≤ S) :
    ∀ fuel (s st : AggState α),
      s.collected.length + 1 ≤ min M 1000 →
      aggLoop src pp M mp fuel s = some (.ok st) →
      st.collected.length ≤ min M 1000 - 1 + S := by
  intro fuel
  induction fuel with
  | zero => intro s st _ h; simp [aggLoop] at h
  | succ n ih =>
    intro s st hinv h
    by_cases hmp : maxPagesReached mp s.fetchedPages
    · rw [aggLoop_stop src pp M mp n s hmp] at h
      cases h
      omega
    rw [Bool.not_eq_true] at hmp
    cases hsrc : src pp s.current with
    | error e =>
      rw [aggLoop, if_neg (by rw [hmp]; exact Bool.false_ne_true), hsrc] at h
      cases h
    | ok pg =>
      have hpg := hS s.current pg hsrc
      rw [aggLoop_fetch src pp M mp n s pg hmp hsrc] at h
      split_ifs at h with h1 h2 h3 h4
      · cases h; simp only [stepState_collected, List.length_append]; omega
      · cases h; simp only [stepState_collected, List.length_append]; omega
      · rw [stepState_collected] at h3
        rw [List.length_append] at h3
        cases h
        rw [show ({ stepState s pg with
              collected := (stepState s pg).collected.take 1000
              : AggState α}).collected
            = (s.collected ++ pg.items).take 1000 from rfl]
        rw [List.length_take, List.length_append]
        omega
      · rw [stepState_collected, List.length_append] at h2 h3
        refine ih _ st ?_ h
        rw [show ({ stepState s pg with current := s.current + 1
              : AggState α}).collected = s.collected ++ pg.items from rfl,
          List.length_append]
        omega
      · cases h; simp only [stepState_collected, List.length_append]; omega

/-- C2 (amended): the returned item count can exceed the caller's bound —
the loop appends a whole page and only then compares against `max_items`,
without trimming — but it never exceeds `min(max_items, 1000) - 1 + S` when
every upstream page carries at most `S` items: before each fetch the
accumulated count is strictly below `min(max_items, 1000)`, so the overshoot
is less than one page. -/
theorem items_length_bound (src : Nat → Nat → Except ε (Page α))
    (a : RawArgs) (S fuel : Nat) (r : SearchResult α)
    (hS : ∀ pp p pg, src pp p = .ok pg → pg.items.length ≤ S)
    (hok : searchCode src a fuel = .ok r) :
    r.items.length ≤ min (applyDefaults a).max_items 1000 - 1 + S := by
  unfold searchCode at hok
  by_cases hv : validArgs a
  · rw [if_pos hv] at hok
    dsimp only at hok
    have hM := validArgs_max_items_pos a hv
    cases hagg : aggLoop src (applyDefaults a).per_page
        (applyDefaults a).max_items (applyDefaults a).max_pages fuel
        (initState (applyDefaults a).page) with
    | none => rw [hagg] at hok; cases hok
    | some res =>
      cases res with
      | error e => rw [hagg] at hok; cases hok
      | ok st =>
        rw [hagg] at hok
        cases hok
        have := aggLoop_len_bound src (applyDefaults a).per_page
          (applyDefaults a).max_items S (applyDefaults a).max_pages
          (hS (applyDefaults a).per_page) fuel (initState (applyDefaults a).page)
          st (by rw [show (initState (applyDefaults a).page : AggState α).collected
                      = [] from rfl]; simpa using hM) hagg
        simpa [toResult] using this
  · rw [if_neg hv] at hok
    cases hok

/-- Closed instance of `items_length_bound`: `max_items = 2` against
3-item pages; the run returns 3 items, within the amended bound
`min(2, 1000) - 1 + 3 = 4`. -/
theorem items_length_bound_witness :
    searchCode (finSrc 3 3)
        ⟨"x", none, none, some 3, none, some 2, none, none⟩ 10
      = .ok ⟨3, false, [0, 1, 2], 1⟩ ∧
    (SearchResult.items ⟨3, false, [0, 1, 2], 1⟩).length
      ≤ min (applyDefaults
          ⟨"x", none, none, some 3, none, some 2, none, none⟩).max_items
          1000 - 1 + 3 :=
  ⟨by decide,
   items_length_bound (finSrc 3 3)
     ⟨"x", none, none, some 3, none, some 2, none, none⟩ 3 10
     ⟨3, false, [0, 1, 2], 1⟩ (fun pp p pg h => finSrc_items_le 3 3 pp p pg h)
     (by decide)⟩

/-! ### Runs over the finite source -/

theorem maxPagesReached_false_lt (m f : Nat)
    (h : maxPagesReached (some m) f = false) (hm : 1 ≤ m) : f < m := by
  unfold maxPagesReached at h
  simp only [Bool.and_eq_false_iff, bne_eq_false_iff_eq,
    decide_eq_false_iff_not, Nat.not_le] at h
  rcases h with h | h
  · omega
  · exact h

theorem succ_le_Pfin_of_mul_lt (S T p : Nat) (hS : 1 ≤ S) (h : p * S < T) :
    p + 1 ≤ Pfin S T := by
  have hdiv : p + 1 ≤ (T + S - 1) / S := by
    rw [Nat.le_div_iff_mul_le hS]
    have hmul : (p + 1) * S = p * S + S := Nat.succ_mul p S
    omega
  unfold Pfin
  omega

theorem finSrc_shape (S T pp p : Nat) :
    ∃ pg : Page Nat,
      finSrc S T pp p = .ok pg ∧
      pg.items.length = min S (T - (p - 1) * S) ∧
      pg.hasNext = decide (p * S < T) :=
  ⟨_, rfl, by simp [finSrc], rfl⟩

/-- Termination and fetch-count bounds of the loop over `finSrc S T`: from
any reachable page number the loop finishes within the remaining page
budget, fetching at most one page per page number up to `Pfin S T`, and
never exceeding a (nonzero) `max_pages` bound. -/
theorem finAgg_term (S T M pp : Nat) (mp : Option Nat) (hS : 1 ≤ S) :
    ∀ fuel (s : AggState Nat),
      1 ≤ s.current → s.current ≤ Pfin S T →
      Pfin S T + 2 - s.current ≤ fuel →
      ∃ st, aggLoop (finSrc S T) pp M mp fuel s = some (.ok st) ∧
        st.fetchedPages ≤ s.fetchedPages + (Pfin S T + 1 - s.current) ∧
        (∀ m, mp = some m → 1 ≤ m → st.fetchedPages ≤ max s.fetchedPages m) := by
  intro fuel
  induction fuel with
  | zero => intro s h1 h2 h3; exfalso; omega
  | succ n ih =>
    intro s hc1 hc2 hfuel
    by_cases hmp : maxPagesReached mp s.fetchedPages
    · refine ⟨s, aggLoop_stop _ _ _ _ _ _ hmp, by omega, ?_⟩
      intro m _ _
      exact Nat.le_max_left _ _
    rw [Bool.not_eq_true] at hmp
    have hmb : ∀ m, mp = some m → 1 ≤ m →
        s.fetchedPages + 1 ≤ max s.fetchedPages m := by
      intro m hm hm1
      subst hm
      have := maxPagesReached_false_lt m s.fetchedPages hmp hm1
      omega
    obtain ⟨pg, hsrc, hplen, hnext⟩ := finSrc_shape S T pp s.current
    rw [aggLoop_fetch (finSrc S T) pp M mp n s pg hmp hsrc]
    split_ifs with h1 h2 h3 h4
    · exact ⟨stepState s pg, rfl, by simp only [stepState_fetchedPages]; omega,
        by intro m hm hm1; simp only [stepState_fetchedPages]; exact hmb m hm hm1⟩
    · exact ⟨stepState s pg, rfl, by simp only [stepState_fetchedPages]; omega,
        by intro m hm hm1; simp only [stepState_fetchedPages]; exact hmb m hm hm1⟩
    · exact ⟨_, rfl, by simp only [stepState_fetchedPages]; omega,
        by intro m hm hm1
           exact hmb m hm hm1⟩
    · have hlt : s.current * S < T := of_decide_eq_true (hnext ▸ h4)
      have hcur2 := succ_le_Pfin_of_mul_lt S T s.current hS hlt
      obtain ⟨st, heq, hb1, hb2⟩ := ih { stepState s pg with current := s.current + 1 }
        (by show 1 ≤ s.current + 1; omega)
        (by show s.current + 1 ≤ Pfin S T; exact hcur2)
        (by show Pfin S T + 2 - (s.current + 1) ≤ n; omega)
      rw [show ({ stepState s pg with current := s.current + 1
            : AggState Nat}).fetchedPages = s.fetchedPages + 1 from rfl] at hb1 hb2
      rw [show ({ stepState s pg with current := s.current + 1
            : AggState Nat}).current = s.current + 1 from rfl] at hb1
      refine ⟨st, heq, by omega, ?_⟩
      intro m hm hm1
      have := hmb m hm hm1
      have := hb2 m hm hm1
      omega
    · exact ⟨stepState s pg, rfl, by simp only [stepState_fetchedPages]; omega,
        by intro m hm hm1; simp only [stepState_fetchedPages]; exact hmb m hm hm1⟩

/-- Exact length of the collection over `finSrc S T` when no `max_pages`
bound is supplied and the page size divides `max_items`: the loop returns
exactly `min T max_items` items. Stated as an invariant over reachable loop
states. -/
theorem finAgg_len (S T M pp : Nat) (hS : 1 ≤ S) (hdvd : S ∣ M)
    (hM1000 : M ≤ 1000) :
    ∀ fuel (s : AggState Nat),
      1 ≤ s.current →
      s.collected.length = (s.current - 1) * S →
      s.collected.length < M →
      s.collected.length < T →
      T + 1 - s.collected.length ≤ fuel →
      ∃ st, aggLoop (finSrc S T) pp M none fuel s = some (.ok st) ∧
        st.collected.length = min T M := by
  intro fuel
  induction fuel with
  | zero => intro s _ _ _ hT hf; exfalso; omega
  | succ n ih =>
    intro s hcur hlen hM hT hfuel
    have hmp : maxPagesReached none s.fetchedPages = false := rfl
    obtain ⟨pg, hsrc, hplen, hnext⟩ := finSrc_shape S T pp s.current
    rw [← hlen] at hplen
    have hstep : (stepState s pg).collected.length
        = s.collected.length + min S (T - s.collected.length) := by
      rw [stepState_collected, List.length_append, hplen]
    have hpos : 1 ≤ pg.items.length := by rw [hplen]; omega
    have hcs : s.current * S = s.collected.length + S := by
      have hc : s.current - 1 + 1 = s.current := by omega
      have hmul : (s.current - 1 + 1) * S = (s.current - 1) * S + S :=
        Nat.succ_mul (s.current - 1) S
      rw [hc] at hmul
      omega
    have hdivM : s.collected.length + S ≤ M := by
      obtain ⟨b, hb⟩ := hdvd
      have hltb : s.current - 1 < b := by
        by_contra hcon
        push_neg at hcon
        have hble : b * S ≤ (s.current - 1) * S := Nat.mul_le_mul_right S hcon
        rw [hb, mul_comm S b] at hM
        omega
      have hble : (s.current - 1 + 1) * S ≤ b * S := Nat.mul_le_mul_right S hltb
      have hmul : (s.current - 1 + 1) * S = (s.current - 1) * S + S :=
        Nat.succ_mul (s.current - 1) S
      rw [hmul] at hble
      rw [hb, mul_comm S b]
      omega
    rw [aggLoop_fetch (finSrc S T) pp M none n s pg hmp hsrc]
    split_ifs with h1 h2 h3 h4
    · exact absurd h1 (by omega)
    · refine ⟨stepState s pg, rfl, ?_⟩
      rw [hstep] at h2 ⊢
      omega
    · exfalso
      rw [hstep] at h2 h3
      omega
    · have hlt : s.current * S < T := of_decide_eq_true (hnext ▸ h4)
      have hstep2 : (stepState s pg).collected.length
          = s.collected.length + S := by
        rw [hstep]; omega
      rw [hstep] at h2
      have hcol : ({ stepState s pg with current := s.current + 1
          : AggState Nat}).collected.length = s.collected.length + S := by
        rw [show ({ stepState s pg with current := s.current + 1
              : AggState Nat}).collected = (stepState s pg).collected from rfl,
          hstep2]
      obtain ⟨st, heq, hl⟩ := ih { stepState s pg with current := s.current + 1 }
        (by show 1 ≤ s.current + 1; omega)
        (by rw [hcol]
            rw [show ({ stepState s pg with current := s.current + 1
                  : AggState Nat}).current = s.current + 1 from rfl,
              Nat.add_sub_cancel]
            omega)
        (by rw [hcol]; omega)
        (by rw [hcol]; omega)
        (by rw [hcol]; omega)
      exact ⟨st, heq, hl⟩
    · have hge : ¬ s.current * S < T := by
        rw [Bool.not_eq_true] at h4
        rw [hnext] at h4
        exact of_decide_eq_false h4
      refine ⟨stepState s pg, rfl, ?_⟩
      rw [hstep] at h2 ⊢
      omega

/-- C1 (amended): over a finite upstream source serving pages of `S` items
(`T` items total, so `Pfin S T` pages, the last possibly smaller), the loop
always terminates, fetches at most `Pfin S T` pages and at most `max_pages`
pages when that bound is supplied; and when no `max_pages` bound is given,
`S` divides `max_items` and `max_items ≤ 1000`, the returned collection has
exactly `min(total_available, max_items, 1000)` items. The claim's
unconditional length equation fails (see the counterexample): a binding
`max_pages` or a page size not dividing `max_items` breaks it. -/
theorem aggregate_bounds (S T M pp fuel : Nat) (mp : Option Nat)
    (hS : 1 ≤ S)
    (hmp1 : ∀ m, mp = some m → 1 ≤ m)
    (hfuel : T + Pfin S T + 2 ≤ fuel) :
    ∃ st, aggLoop (finSrc S T) pp M mp fuel (initState 1) = some (.ok st) ∧
      st.fetchedPages ≤ Pfin S T ∧
      (∀ m, mp = some m → st.fetchedPages ≤ m) ∧
      (mp = none → S ∣ M → 1 ≤ M → M ≤ 1000 →
        st.collected.length = min T (min M 1000)) := by
  have hP1 : 1 ≤ Pfin S T := le_max_left 1 _
  have h0 : (initState 1 : AggState Nat).fetchedPages = 0 := rfl
  have h1 : (initState 1 : AggState Nat).current = 1 := rfl
  obtain ⟨st, heq, hb1, hb2⟩ := finAgg_term S T M pp mp hS fuel (initState 1)
    (by rw [h1]) (by rw [h1]; exact hP1) (by rw [h1]; omega)
  rw [h0, h1] at hb1
  rw [h0] at hb2
  refine ⟨st, heq, by omega, ?_, ?_⟩
  · intro m hm
    have := hb2 m hm (hmp1 m hm)
    omega
  · intro hnone hdvd hM1 hM1000
    subst hnone
    rcases Nat.eq_zero_or_pos T with hT0 | hT1
    · subst hT0
      cases fuel with
      | zero => exfalso; omega
      | succ n =>
        obtain ⟨pg, hsrc, hplen, hnext⟩ := finSrc_shape S 0 pp 1
        have hplen0 : pg.items.length = 0 := by rw [hplen]; omega
        have hcomp : aggLoop (finSrc S 0) pp M none (n + 1) (initState 1)
            = some (.ok (stepState (initState 1) pg)) := by
          rw [aggLoop_fetch (finSrc S 0) pp M none n (initState 1) pg
                (by rw [h0]; exact maxPagesReached_zero none)
                (by rw [h1]; exact hsrc),
            if_pos hplen0]
        rw [heq] at hcomp
        simp only [Option.some.injEq, Except.ok.injEq] at hcomp
        rw [hcomp, stepState_collected, List.length_append, hplen0]
        simp [initState]
    · obtain ⟨st', heq', hl⟩ := finAgg_len S T M pp hS hdvd hM1000 fuel
        (initState 1)
        (by rw [h1])
        (by rw [h1]
            rw [show (initState 1 : AggState Nat).collected = [] from rfl]
            simp)
        (by rw [show (initState 1 : AggState Nat).collected = [] from rfl]
            simpa using hM1)
        (by rw [show (initState 1 : AggState Nat).collected = [] from rfl]
            simpa using hT1)
        (by rw [show (initState 1 : AggState Nat).collected = [] from rfl]
            simp only [List.length_nil]
            omega)
      rw [heq] at heq'
      simp only [Option.some.injEq, Except.ok.injEq] at heq'
      rw [heq', hl, Nat.min_eq_left hM1000]

/-- Closed instance of `aggregate_bounds`: pages of 2 items, 6 available,
`max_items = 4`, no `max_pages`. -/
theorem aggregate_bounds_witness :
    ∃ st, aggLoop (finSrc 2 6) 2 4 none 20 (initState 1) = some (.ok st) ∧
      st.fetchedPages ≤ Pfin 2 6 ∧
      (∀ m, (none : Option Nat) = some m → st.fetchedPages ≤ m) ∧
      ((none : Option Nat) = none → 2 ∣ 4 → 1 ≤ 4 → 4 ≤ 1000 →
        st.collected.length = min 6 (min 4 1000)) :=
  aggregate_bounds 2 6 4 2 20 none (by decide)
    (fun m hm => by cases hm) (by decide)

/-! ### Registry lemmas -/

theorem lookupT_release_self (m : Registry) (sid : String) :
    lookupT (release m sid) sid = none := by
  unfold lookupT release
  rw [Option.map_eq_none', List.find?_eq_none]
  intro x hx
  have := List.of_mem_filter hx
  simpa using this

theorem release_idem (m : Registry) (sid : String) :
    release (release m sid) sid = release m sid := by
  unfold release
  rw [List.filter_filter]
  simp

theorem release_of_unknown (m : Registry) (sid : String)
    (h : lookupT m sid = none) : release m sid = m := by
  unfold lookupT at h
  rw [Option.map_eq_none', List.find?_eq_none] at h
  unfold release
  rw [List.filter_eq_self]
  intro a ha
  simpa using h a ha

/-! ### Claim theorems: session registry and routing -/

/-- C9: `release(id)` followed by `resolve(id)` behaves as if `id` had never
existed — after `onsessionclosed` deletes the entry, `ensureTransport`
treats the id as unknown and creates a fresh transport; and `release` is
idempotent and a no-op on an unknown id. -/
theorem release_resolve_roundTrip (m : Registry) (sid : String) :
    ensureTransport (release m sid) (some sid) = .fresh ∧
    release (release m sid) sid = release m sid ∧
    (lookupT m sid = none → release m sid = m) := by
  refine ⟨?_, release_idem m sid, release_of_unknown m sid⟩
  simp [ensureTransport, lookupT_release_self]

/-- Closed instance of `release_resolve_roundTrip` at concrete registries. -/
theorem release_resolve_roundTrip_witness :
    (release (release [("a", 1), ("b", 2)] "a") "a"
        = release [("a", 1), ("b", 2)] "a") ∧
    ensureTransport (release [("a", 1), ("b", 2)] "a") (some "a") = .fresh ∧
    release [("b", 2)] "a" = [("b", 2)] := by
  refine ⟨(release_resolve_roundTrip [("a", 1), ("b", 2)] "a").2.1,
          (release_resolve_roundTrip [("a", 1), ("b", 2)] "a").1,
          (release_resolve_roundTrip [("b", 2)] "a").2.2 (by decide)⟩

/-- C6 (counterexample): a POST with no session token on the empty registry
is not rejected — `ensureTransport` creates a fresh transport and the
request is delegated to it, contradicting the claim that such a request is
rejected. -/
theorem post_unknown_session_not_rejected :
    routeAction [("a", 1)] .post (some "b") = .delegateFresh ∧
    routeAction [] .post none = .delegateFresh ∧
    RouteAction.delegateFresh ≠ RouteAction.reject400 := by
  decide

/-- C6 (amended): only the DELETE `/mcp` handler rejects a request whose
session token is absent or unknown (HTTP 400, registry unchanged); POST and
GET requests with such a token are instead delegated to a freshly created
transport, and for a non-handshake message no registry entry is created on
any route. -/
theorem unknown_session_routing (m : Registry) (sid : Option String)
    (h : ∀ s, sid = some s → lookupT m s = none) :
    routeAction m .del sid = .reject400 ∧
    routeAction m .post sid = .delegateFresh ∧
    routeAction m .get sid = .delegateFresh ∧
    (∀ ns nt, routeRegistry m .del sid false ns nt = m) ∧
    (∀ ns nt, routeRegistry m .post sid false ns nt = m) ∧
    (∀ ns nt, routeRegistry m .get sid false ns nt = m) := by
  have hact : ∀ meth, meth = Method.post ∨ meth = Method.get →
      routeAction m meth sid = .delegateFresh := by
    intro meth hm
    cases sid with
    | none => rcases hm with rfl | rfl <;> rfl
    | some s =>
      have hs := h s rfl
      rcases hm with rfl | rfl <;>
        simp [routeAction, ensureTransport, hs]
  have hdel : routeAction m .del sid = .reject400 := by
    cases sid with
    | none => rfl
    | some s =>
      have hs := h s rfl
      simp [routeAction, handleSession, hs]
  refine ⟨hdel, hact .post (Or.inl rfl), hact .get (Or.inr rfl), ?_, ?_, ?_⟩ <;>
    intro ns nt <;>
    simp [routeRegistry, hdel, hact .post (Or.inl rfl), hact .get (Or.inr rfl)]

/-- Closed instance of `unknown_session_routing`: unknown token `"b"` on the
registry `[("a", 1)]`. -/
theorem unknown_session_routing_witness :
    routeAction [("a", 1)] .del (some "b") = .reject400 ∧
    routeAction [("a", 1)] .post (some "b") = .delegateFresh ∧
    routeAction [("a", 1)] .get (some "b") = .delegateFresh ∧
    (∀ ns nt, routeRegistry [("a", 1)] .del (some "b") false ns nt = [("a", 1)]) ∧
    (∀ ns nt, routeRegistry [("a", 1)] .post (some "b") false ns nt = [("a", 1)]) ∧
    (∀ ns nt, routeRegistry [("a", 1)] .get (some "b") false ns nt = [("a", 1)]) :=
  unknown_session_routing [("a", 1)] (some "b")
    (by intro s hs; injection hs with h2; subst h2; decide)

/-! ### Claim theorems: argument validation -/

/-- C8 (counterexample): a call that omits `per_page` passes validation, and
the loop sends `per_page = 100` upstream — the destructuring default is
applied after `inputSchema.parse` and is neither clamped nor rejected,
contradicting the claim. -/
theorem default_per_page_sent_unclamped :
    validArgs ⟨"x", none, none, none, none, none, none, none⟩ = true ∧
    respErr (searchCode probeSrc ⟨"x", none, none, none, none, none, none, none⟩ 5)
      = some 100 ∧
    ¬(100 ≤ 25) := by
  decide

/-- C8 (amended): an explicitly supplied `per_page` is validated to the
range 1–25 (out-of-range values are rejected by the schema); an omitted
`per_page` defaults to 100 after validation and that value is sent upstream
unclamped. -/
theorem per_page_validation_behavior (a : RawArgs) (h : validArgs a = true) :
    (∀ n, a.per_page = some n → 1 ≤ n ∧ n ≤ 25) ∧
    (a.per_page = none → (applyDefaults a).per_page = 100) := by
  unfold validArgs at h
  simp only [Bool.and_eq_true] at h
  constructor
  · intro n hn
    have hp := h.1.1.1.2
    rw [hn] at hp
    simpa [Bool.and_eq_true, decide_eq_true_eq] using hp
  · intro hn
    simp [applyDefaults, hn]

/-- Closed instance of `per_page_validation_behavior` at two concrete
argument records. -/
theorem per_page_validation_behavior_witness :
    (∀ n, (some 25 : Option Nat) = some n → 1 ≤ n ∧ n ≤ 25) ∧
    ((applyDefaults ⟨"x", none, none, none, none, none, none, none⟩).per_page
      = 100) := by
  refine ⟨(per_page_validation_behavior
            ⟨"x", none, none, some 25, none, none, none, none⟩ (by decide)).1,
          (per_page_validation_behavior
            ⟨"x", none, none, none, none, none, none, none⟩ (by decide)).2 rfl⟩

/-! ### Claim theorems: aggregation counterexamples and evaluations -/

/-- C1 (counterexample): with an upstream of 3 pages of 2 items (6 total)
and `max_pages = 1`, the run returns 2 items, not
`min(total_available, max_items, 1000) = 6` as the claim's length equation
demands. -/
theorem aggregate_length_neq_min :
    respLen (searchCode (finSrc 2 6)
      ⟨"x", none, none, some 2, none, none, some 1, none⟩ 10) = some 2 ∧
    (2 : Nat) ≠ min 6 (min 1000 1000) := by
  decide

/-- C2 (counterexample): with `max_items = 5` and a single upstream page of
25 items, the returned collection has 25 items — the loop appends the whole
page and only then breaks, so the result exceeds
`min(max_items, 1000) = 5`. -/
theorem items_length_exceeds_caller_bound :
    respLen (searchCode (finSrc 25 25)
      ⟨"x", none, none, some 25, none, some 5, none, none⟩ 10) = some 25 ∧
    ¬(25 ≤ min 5 1000) := by
  decide

/-- C5 (code bug): with `per_page = 24`, `max_items` left at its default
1000 and an upstream holding 1008 items, the accumulated count jumps from
984 to 1008, the `collected.length >= max_items` break fires first, and the
run returns 1008 items — the `collected.length >= 1000` truncation branch
(src/server.ts line 72) is unreachable because `max_items ≤ 1000` in every
run, so the result is never cut back to exactly 1000. -/
theorem ceiling_overrun_eval :
    respLen (searchCode (finSrc 24 1008)
      ⟨"x", none, none, some 24, none, none, none, none⟩ 50) = some 1008 ∧
    1000 < 1008 := by
  constructor
  · set_option maxRecDepth 40000 in decide
  · decide

/-! ### Claim theorems: fail-fast -/

/-- C7: at any state of the paging loop that is about to fetch — whatever
items `s.collected` already holds — a fetch failure makes the whole
aggregation return exactly that error: no partial result survives, the
accumulated items are discarded. -/
theorem aggLoop_failFast (src : Nat → Nat → Except ε (Page α))
    (pp M : Nat) (mp : Option Nat) (fuel : Nat) (s : AggState α) (e : ε)
    (hmp : maxPagesReached mp s.fetchedPages = false)
    (hsrc : src pp s.current = .error e) :
    aggLoop src pp M mp (fuel + 1) s = some (.error e) := by
  simp [aggLoop, hmp, hsrc]

/-- Closed instance of `aggLoop_failFast`: two items already collected, the
fetch of page 3 fails, and the loop output is the bare error. -/
theorem aggLoop_failFast_witness :
    aggLoop (fun _ _ => (.error 42 : Except Nat (Page Nat))) 25 1000 none
      (7 + 1) ⟨[9, 9], 3, 2, 77, false⟩ = some (.error 42) :=
  aggLoop_failFast (fun _ _ => .error 42) 25 1000 none 7
    ⟨[9, 9], 3, 2, 77, false⟩ 42 (by decide) rfl

end Cuttlefish
